import Mathlib

/-!
Verification of the tabular data-shaping pipeline of a WHO TB analytics
dashboard (app.py).

The dashboard's data layer is embedded shallowly:

* a cell `Value` is a string, a rational number (modelling the floats the
  source manipulates), or the missing marker (pandas NaN);
* a `Row` is an ordered association list from column names to values, and a
  `Table` is an ordered list of rows, mirroring a pandas DataFrame;
* each data-shaping operation of the source (column resolution, numeric
  coercion, row dropping, top-K ranking, development-status classification,
  matched sampling, cached loading, and the derived-table merges) is
  translated into an executable Lean function.

Theorems at the end of the file settle the specification claims against
these definitions.
-/

/-- A cell of a table: a string, a number (the source works with floats,
modelled as rationals), or the missing marker (pandas NaN / None). -/
inductive Value where
  | str : String → Value
  | num : ℚ → Value
  | null : Value
deriving DecidableEq, Repr

/-- A row: an ordered association list from column names to cell values. -/
abbrev Row := List (String × Value)

/-- A table: an ordered list of rows (insertion order of the source data). -/
abbrev Table := List Row

/-- Reading a cell: the first entry with the given column name; a column
absent from the row reads as the missing marker. -/
def getCell : Row → String → Value
  | [], _ => .null
  | p :: r, c => if p.1 = c then p.2 else getCell r c

/-- Writing a cell, as pandas column assignment does: replace the value of an
existing column in place, or append a new column at the end. -/
def setCell (r : Row) (c : String) (v : Value) : Row :=
  if r.any (fun p => p.1 == c) then
    r.map (fun p => if p.1 = c then (c, v) else p)
  else
    r ++ [(c, v)]

/-- Python's `str.upper()` on the ASCII column names the source handles:
upper-case every character. -/
def upperString (s : String) : String :=
  String.mk (s.data.map Char.toUpper)

/-- `find_col` of `show_task3` (app.py): scan the header in order and return
the first column whose upper-cased name equals the upper-cased target;
`none` models the `KeyError` raised when no column matches. -/
def find_col (cols : List String) (target : String) : Option String :=
  cols.find? (fun c => upperString c == upperString target)

/- ### Numeric coercion (`pd.to_numeric(..., errors="coerce")`) -/

/-- Value of a list of decimal digit characters. -/
def digitsVal (cs : List Char) : Nat :=
  cs.foldl (fun n c => 10 * n + (c.toNat - 48)) 0

/-- Whether every character of the list is a decimal digit. -/
def allDigits (cs : List Char) : Bool :=
  cs.all (fun c => c.isDigit)

/-- Parse a decimal numeral (optional sign, optional fractional part) to a
rational; any string outside this grammar is unparseable.  This models the
parsing performed by `pd.to_numeric`: strings such as "N/A" fail. -/
def parseRat (s : String) : Option ℚ :=
  let cs := s.toList
  let signed : Bool × List Char :=
    match cs with
    | '-' :: rest => (true, rest)
    | '+' :: rest => (false, rest)
    | _ => (false, cs)
  let neg := signed.1
  let body := signed.2
  let ipart := body.takeWhile (fun c => !(c == '.'))
  let rest := body.dropWhile (fun c => !(c == '.'))
  let core : Option ℚ :=
    match rest with
    | [] => if allDigits ipart && !ipart.isEmpty then some (digitsVal ipart) else none
    | _ :: frac =>
        if allDigits ipart && allDigits frac && !(ipart.isEmpty && frac.isEmpty)
            && !frac.any (fun c => c == '.') then
          some ((digitsVal ipart : ℚ) + (digitsVal frac : ℚ) / (10 : ℚ) ^ frac.length)
        else none
  core.map (fun q => if neg then -q else q)

/-- Coercion of one cell, as `pd.to_numeric(..., errors="coerce")` acts on a
single entry: numbers stay as they are, missing stays missing, and strings
become their parsed number, or missing when unparseable. -/
def toNumericValue : Value → Value
  | .num q => .num q
  | .null => .null
  | .str s =>
    match parseRat s with
    | some q => .num q
    | none => .null

/-- Coerce the column named `c` of one row. -/
def coerceRow (c : String) (r : Row) : Row :=
  r.map (fun p => if p.1 = c then (p.1, toNumericValue p.2) else p)

/-- `df[c] = pd.to_numeric(df[c], errors="coerce")`: coerce one column of
every row of the table. -/
def coerceCol (t : Table) (c : String) : Table :=
  t.map (coerceRow c)

/-- The coercion loop of `show_task3`: coerce each designated column in
sequence. -/
def coerceCols (t : Table) (cs : List String) : Table :=
  cs.foldl coerceCol t

/-- `df.dropna(subset=req)`: keep exactly the rows with no missing value in
any of the required columns. -/
def dropnaSubset (t : Table) (req : List String) : Table :=
  t.filter (fun r => req.all (fun c => !(getCell r c == Value.null)))

/-- The whole coercion-and-filter stage of `show_task3`: coerce the
designated columns, then drop the rows with a missing required value. -/
def coerceAndFilter (t : Table) (cs req : List String) : Table :=
  dropnaSubset (coerceCols t cs) req

/-- A cell that is either a valid number or the missing marker. -/
def numOrNull (v : Value) : Prop :=
  (∃ q, v = Value.num q) ∨ v = Value.null

/-- A tiny table whose every row has an unparseable required value. -/
def exAllBad : Table :=
  [[("COUNTRY", Value.str "Algeria"), ("VALUE", Value.str "N/A")],
   [("COUNTRY", Value.str "Benin"), ("VALUE", Value.null)]]

/- ### Development-status classifier (`show_task3`, Visual 3.2) -/

/-- The static reference set `developed_set` of `show_task3`, verbatim. -/
def developed_set : List String :=
  ["Australia", "Austria", "Belgium", "Canada", "Denmark", "Finland",
   "France", "Germany", "Iceland", "Ireland", "Israel", "Italy", "Japan",
   "Luxembourg", "Netherlands (Kingdom of the)", "New Zealand", "Norway",
   "Portugal", "Singapore", "Spain", "Sweden", "Switzerland",
   "United Kingdom of Great Britain and Northern Ireland",
   "United States of America", "Republic of Korea", "Cyprus", "Czechia",
   "Estonia", "Greece", "Hungary", "Latvia", "Lithuania", "Poland",
   "Slovakia", "Slovenia", "Malta"]

/-- The classifying lambda of `show_task3`: "Developed" when the country
cell is a member of the reference set, "Developing" otherwise (any
non-string cell is not a member, hence "Developing"). -/
def devLabel (v : Value) : String :=
  match v with
  | .str s => if s ∈ developed_set then "Developed" else "Developing"
  | _ => "Developing"

/-- `tb_cov_df["DEV_STATUS"] = tb_cov_df[country_col].apply(...)`: label
every row with its development status. -/
def addDevStatus (t : Table) (countryCol : String) : Table :=
  t.map (fun r => setCell r "DEV_STATUS" (.str (devLabel (getCell r countryCol))))

/- ### Top-K ranking (`show_task3`, Panel B) -/

/-- The numeric content of a cell, when it has one. -/
def cellNum? : Value → Option ℚ
  | .num q => some q
  | _ => none

/-- Whether an optional value is a number strictly greater than `v`
(a missing value compares false, as NaN does in pandas). -/
def isGtV (v : ℚ) : Option ℚ → Bool
  | some q => decide (v < q)
  | none => false

/-- Whether an optional value is the number `v` exactly. -/
def isEqV (v : ℚ) : Option ℚ → Bool
  | some q => decide (q = v)
  | none => false

/-- How many values of the column are strictly greater than `v`. -/
def countGreater (vals : List (Option ℚ)) (v : ℚ) : Nat :=
  vals.countP (isGtV v)

/-- How many values strictly before position `i` equal `v`. -/
def countEqBefore (vals : List (Option ℚ)) (i : Nat) (v : ℚ) : Nat :=
  (vals.take i).countP (isEqV v)

/-- `Series.rank(method="first", ascending=False)` at position `i`: the
rank of a present value `v` is one more than the number of strictly
greater values plus the number of earlier occurrences of `v` (first
occurrence wins); a missing value has no rank, as NaN ranks NaN. -/
def rankFirstDesc (vals : List (Option ℚ)) (i : Nat) : Option Nat :=
  match vals.getD i none with
  | none => none
  | some v => some (1 + countGreater vals v + countEqBefore vals i v)

/-- The boolean mask `rank <= K` (false on an unranked missing value). -/
def keepTop (K : Nat) (vals : List (Option ℚ)) (i : Nat) : Bool :=
  match rankFirstDesc vals i with
  | some k => decide (k ≤ K)
  | none => false

/-- Panel B of `show_task3`: restrict to the rows of the requested year,
rank the value column descending with method "first", and keep the rows
whose rank is at most `K` (the source uses `K = 5`), in their original
order. -/
def topKOfYear (t : Table) (yearCol valueCol : String) (y : ℚ) (K : Nat) :
    Table :=
  let part := t.filter (fun r => getCell r yearCol == Value.num y)
  let vals := part.map (fun r => cellNum? (getCell r valueCol))
  (part.enum.filter (fun p => keepTop K vals p.1)).map Prod.snd

/-- The spec's Top-K example: rows (A,50), (B,70), (C,70), (D,90) in one
year partition. -/
def exTop : Table :=
  [[("year", Value.num 2020), ("country", Value.str "A"), ("value", Value.num 50)],
   [("year", Value.num 2020), ("country", Value.str "B"), ("value", Value.num 70)],
   [("year", Value.num 2020), ("country", Value.str "C"), ("value", Value.num 70)],
   [("year", Value.num 2020), ("country", Value.str "D"), ("value", Value.num 90)]]

/-- The value column of the example partition. -/
def exTopVals : List (Option ℚ) :=
  [some 50, some 70, some 70, some 90]

/- ### Matched sampling by development status (`show_task3`, Visual 3.2) -/

/-- A row of the treatment-coverage table projected to the two columns the
matched sampler reads: the country name and the (numeric, post-filter)
coverage value. -/
structure CRow where
  country : String
  value : ℚ
deriving DecidableEq, Repr

/-- Development status of a country name, as the classifying lambda
computes it. -/
def devStatus (c : String) : String :=
  devLabel (Value.str c)

/-- Lexicographic comparison of character lists by code point, the order
Python uses on strings (structural, so that it evaluates). -/
def charListLe : List Char → List Char → Bool
  | [], _ => true
  | _ :: _, [] => false
  | a :: as, b :: bs =>
    if a = b then charListLe as bs else decide (a.toNat < b.toNat)

/-- Python's string comparison (code-point lexicographic). -/
def strLe (a b : String) : Bool :=
  charListLe a.data b.data

/-- The distinct elements of a list in first-occurrence order. -/
def firstOccur (l : List String) : List String :=
  l.foldl (fun acc c => if c ∈ acc then acc else acc ++ [c]) []

/-- The distinct countries of the table in ascending name order: the group
keys enumerated by `groupby([country_col, "DEV_STATUS"])`, which sorts its
keys (and the status component is a function of the country). -/
def sortedCountries (t : List CRow) : List String :=
  List.insertionSort (fun a b => strLe a b = true) (firstOccur (t.map CRow.country))

/-- The groupby mean `MEAN_COV` of the value column over all rows of one
country. -/
def meanValue (t : List CRow) (c : String) : ℚ :=
  ((t.filter (fun r => r.country = c)).map CRow.value).sum /
    ((t.filter (fun r => r.country = c)).map CRow.value).length

/-- `mean_df`: one `(country, DEV_STATUS, MEAN_COV)` entry per group, in
the sorted group-key order produced by groupby. -/
def mean_df (t : List CRow) : List (String × String × ℚ) :=
  (sortedCountries t).map (fun c => (c, devStatus c, meanValue t c))

/-- `devN = len(mean_df[mean_df["DEV_STATUS"] == "Developed"])`. -/
def devN (t : List CRow) : Nat :=
  ((mean_df t).filter (fun e => e.2.1 == "Developed")).length

/-- `worstDeveloping`: the Developing entries of `mean_df`, sorted by
ascending mean (a stable sort, the behaviour of the source's sort at the
list sizes involved), first `devN` country names taken. -/
def worstDeveloping (t : List CRow) : List String :=
  (((mean_df t).filter (fun e => e.2.1 == "Developing")).insertionSort
      (fun a b => a.2.2 ≤ b.2.2)).take (devN t) |>.map (fun e => e.1)

/-- The rows feeding the Developed heatmap: every Developed row. -/
def matchedDeveloped (t : List CRow) : List CRow :=
  t.filter (fun r => devStatus r.country == "Developed")

/-- The rows feeding the Developing heatmap: the rows of the selected
Developing countries. -/
def matchedDeveloping (t : List CRow) : List CRow :=
  t.filter (fun r =>
    devStatus r.country == "Developing" && (worstDeveloping t).contains r.country)

/-- The set of distinct countries appearing in a list of rows. -/
def countriesOf (l : List CRow) : Finset String :=
  (l.map CRow.country).toFinset

/-- The number of distinct Developing countries of the table. -/
def developingCount (t : List CRow) : Nat :=
  ((sortedCountries t).filter (fun c => devStatus c == "Developing")).length

/-- The claim's selection rule, following the spec's words rather than the
source: Developing countries in stable input (first-occurrence) order,
stably sorted by ascending mean, first `n` taken.  It differs from
`worstDeveloping`, which sorts the alphabetically grouped means. -/
def specWorstDeveloping (t : List CRow) : List String :=
  ((((firstOccur (t.map CRow.country)).filter
        (fun c => devStatus c == "Developing")).map
      (fun c => (c, meanValue t c))).insertionSort
    (fun a b => a.2 ≤ b.2)).take (devN t) |>.map (fun e => e.1)

/-- The tie-break example: two Developing countries with equal means, the
one later in alphabetical order appearing first in the input, and one
Developed country (so n = 1). -/
def exMatch : List CRow :=
  [⟨"Zimbabwe", 10⟩, ⟨"Angola", 10⟩, ⟨"France", 50⟩]

/- ### Caching and purity of the Task 3 data stage (`load_tb_cov_data`) -/

/-- The `st.cache_data` store backing `load_tb_cov_data`: empty before the
first call, afterwards holding the table read from disk.  `st.cache_data`
hands each caller a fresh copy of the cached value, so the caller's later
column assignments never reach the store. -/
structure CacheState where
  cached : Option Table
deriving DecidableEq, Repr

/-- `load_tb_cov_data()`: on a miss, read the file and fill the cache; on
a hit, return (a copy of) the cached table, leaving the store untouched.
Returns the dataframe handed to `show_task3` together with the new cache
state. -/
def load_tb_cov_data (disk : Table) (s : CacheState) : Table × CacheState :=
  match s.cached with
  | some t => (t, s)
  | none => (disk, ⟨some disk⟩)

/-- One run of the `show_task3` data stage: load through the cache, then
coerce the designated columns and drop the rows with missing required
values.  The source's `tb_cov_df[c] = ...` assignments mutate only the
per-call copy. -/
def run_task3_stage (disk : Table) (cs req : List String) (s : CacheState) :
    Table × CacheState :=
  ((coerceAndFilter (load_tb_cov_data disk s).1 cs req),
    (load_tb_cov_data disk s).2)

/- ### Task 4 loading (`load_task4_data` and its caller `show_task4`) -/

/-- A raw dataframe: a header naming the columns, and the rows. -/
structure Frame where
  header : List String
  rows : List Row
deriving DecidableEq, Repr

/-- `DataFrame.empty` of pandas: true when either axis has length zero. -/
def frameEmpty (f : Frame) : Bool :=
  f.rows.isEmpty || f.header.isEmpty

/-- The empty dataframe returned on every failure path. -/
def emptyFrame : Frame :=
  ⟨[], []⟩

/-- `df.rename(columns={old: nw})`: rename one column in header and rows. -/
def renameCol (f : Frame) (old nw : String) : Frame :=
  ⟨f.header.map (fun c => if c = old then nw else c),
   f.rows.map (fun r => r.map (fun p => if p.1 = old then (nw, p.2) else p))⟩

/-- Column selection `df[[c for c in cols_to_keep if c in df.columns]]`. -/
def selectCols (f : Frame) (cols : List String) : Frame :=
  ⟨cols.filter (fun c => f.header.contains c),
   f.rows.map (fun r =>
    (cols.filter (fun c => f.header.contains c)).map (fun c => (c, getCell r c)))⟩

/-- The cleaning of the incidence file in `load_task4_data`: rename
`Category` to `year` when present, rename the three long column names,
and keep the columns of interest that exist. -/
def cleanIncidence (f : Frame) : Frame :=
  selectCols
    (renameCol (renameCol (renameCol
      (if f.header.contains "Category" then renameCol f "Category" "year" else f)
      "Estimated TB incidence per 100 000 population" "tb_incidence")
      "Uncertainty interval (low)" "tb_incidence_low")
      "Uncertainty interval (high)" "tb_incidence_high")
    ["year", "tb_incidence", "tb_incidence_low", "tb_incidence_high"]

/-- The cleaning of the RR-prevalence file in `load_task4_data`. -/
def cleanRR (f : Frame) : Frame :=
  selectCols
    (renameCol (renameCol
      (if f.header.contains "Category" then renameCol f "Category" "year" else f)
      "Previously treated pulmonary bacteriologically confirmed cases" "rr_prev_prevtx")
      "New pulmonary bacteriologically confirmed cases" "rr_prev_new")
    ["year", "rr_prev_prevtx", "rr_prev_new"]

/-- `pd.merge(inc_clean, rr_clean, on="year", how="inner")`: an absent
`year` column on either side raises (a `KeyError`, modelled as the error
case); otherwise every pair of rows with equal year cells is joined. -/
def mergeOnYear (f1 f2 : Frame) : Except Unit Frame :=
  if f1.header.contains "year" && f2.header.contains "year" then
    Except.ok ⟨f1.header ++ f2.header.filter (fun c => !(c == "year")),
      (f1.rows.map (fun r1 =>
        (f2.rows.filter (fun r2 => getCell r2 "year" == getCell r1 "year")).map
          (fun r2 => r1 ++ r2.filter (fun p => !(p.1 == "year"))))).flatten⟩
  else
    Except.error ()

/-- `merged[(merged["year"] >= 2017) & (merged["year"] <= 2023)]`. -/
def yearRange (f : Frame) : Frame :=
  ⟨f.header, f.rows.filter (fun r =>
    match getCell r "year" with
    | Value.num q => decide (2017 ≤ q) && decide (q ≤ 2023)
    | _ => false)⟩

/-- The region keys of `DATA_FILES_TASK4`. -/
def task4Keys : List String :=
  ["Global", "WHO African Region", "WHO/PAHO Region of the Americas",
   "WHO Eastern Mediterranean Region", "WHO European Region",
   "WHO South-East Asia Region", "WHO Western Pacific Region"]

/-- The body of the `try` block of `load_task4_data`: read both files (a
missing or unreadable file is a raised error, modelled by `none`), clean
both sides, and when neither cleaned side is empty, merge on year and
keep the 2017-2023 range; an empty side yields the empty frame without
merging. -/
def task4Body (inc rr : Option Frame) : Except Unit Frame :=
  match inc, rr with
  | some fi, some fr =>
    if !(frameEmpty (cleanIncidence fi)) && !(frameEmpty (cleanRR fr)) then
      match mergeOnYear (cleanIncidence fi) (cleanRR fr) with
      | Except.ok m => Except.ok (yearRange m)
      | Except.error e => Except.error e
    else
      Except.ok emptyFrame
  | _, _ => Except.error ()

/-- `load_task4_data`: an unknown region key returns the empty frame at
once, and the `except Exception` clause converts every error of the body
into the empty frame. -/
def load_task4_data (regionKey : String) (inc rr : Option Frame) : Frame :=
  if task4Keys.contains regionKey then
    match task4Body inc rr with
    | Except.ok f => f
    | Except.error _ => emptyFrame
  else
    emptyFrame

/-- What `show_task4` renders for a loaded frame. -/
inductive RenderState where
  | noData
  | chart
deriving DecidableEq, Repr

/-- The caller `show_task4`: an empty frame becomes the warning (no-data)
state, anything else is charted; nothing escapes as an exception. -/
def show_task4_render (f : Frame) : RenderState :=
  if frameEmpty f then RenderState.noData else RenderState.chart

/- ### Task 2 loading (`load_task2_map_data`) -/

/-- One row of the visual2 source as the reduction map reads it. -/
structure T2Row where
  country : String
  iso3 : String
  g_whoregion : String
  year : Int
  e_inc_100k : Option ℚ
deriving DecidableEq, Repr

/-- The `region_map` of `load_task2_map_data`; a code outside the mapping
becomes missing and the row is dropped. -/
def region_map (code : String) : Option String :=
  if code = "AFR" then some "Africa"
  else if code = "AMR" then some "Americas"
  else if code = "EMR" then some "Eastern Mediterranean"
  else if code = "EUR" then some "Europe"
  else if code = "SEAR" then some "South-East Asia"
  else if code = "WPR" then some "Western Pacific"
  else none

/-- The rows whose region code maps, paired with the mapped region
(`df = df[~df["region"].isna()]`). -/
def t2Mapped (raw : List T2Row) : List (T2Row × String) :=
  raw.filterMap (fun r => (region_map r.g_whoregion).map (fun reg => (r, reg)))

/-- `df_sub = df[df["year"].isin([2017, 2023])]`. -/
def t2Sub (raw : List T2Row) : List (T2Row × String) :=
  (t2Mapped raw).filter (fun p => p.1.year == 2017 || p.1.year == 2023)

/-- The distinct pivot keys (country, iso3, region) of the 2017/2023
rows (their order is irrelevant to every property below). -/
def t2Keys (raw : List T2Row) : List (String × String × String) :=
  ((t2Sub raw).map (fun p => (p.1.country, p.1.iso3, p.2))).dedup

/-- The present incidence observations of one pivot cell. -/
def t2CellVals (raw : List T2Row) (k : String × String × String) (y : Int) :
    List ℚ :=
  ((t2Sub raw).filter (fun p =>
    p.1.country == k.1 && p.1.iso3 == k.2.1 && p.2 == k.2.2 && p.1.year == y)).filterMap
    (fun p => p.1.e_inc_100k)

/-- `pivot_table`'s default mean aggregation of a cell: missing when no
observation exists. -/
def cellMean (vs : List ℚ) : Option ℚ :=
  if vs.isEmpty then none else some (vs.sum / vs.length)

/-- A row of the pivoted (wide) frame. -/
structure WideRow where
  country : String
  iso3 : String
  region : String
  inc_2017 : Option ℚ
  inc_2023 : Option ℚ
deriving DecidableEq, Repr

/-- The wide frame: one row per pivot key, with the mean 2017 and 2023
incidences. -/
def t2Wide (raw : List T2Row) : List WideRow :=
  (t2Keys raw).map (fun k =>
    ⟨k.1, k.2.1, k.2.2, cellMean (t2CellVals raw k 2017),
      cellMean (t2CellVals raw k 2023)⟩)

/-- `Series.clip(lower, upper)` on one value. -/
def clipRat (lo hi x : ℚ) : ℚ :=
  min hi (max lo x)

/-- A row of the final reduction frame. -/
structure RedRow where
  country : String
  iso3 : String
  region : String
  inc_2017 : Option ℚ
  inc_2023 : Option ℚ
  reduction_pct : ℚ
  reduction_pct_capped : ℚ
deriving DecidableEq, Repr

/-- `load_task2_map_data`: keep the wide rows with both incidences
present and a positive 2017 incidence (a missing value compares false,
as NaN does), then derive the percentage reduction and its capped
version. -/
def load_task2_map_data (raw : List T2Row) : List RedRow :=
  ((t2Wide raw).filter (fun w =>
    !(w.inc_2017 == none) && !(w.inc_2023 == none) &&
      decide (0 < w.inc_2017.getD 0))).map
    (fun w =>
      ⟨w.country, w.iso3, w.region, w.inc_2017, w.inc_2023,
        (w.inc_2017.getD 0 - w.inc_2023.getD 0) / w.inc_2017.getD 0 * 100,
        clipRat (-50) 100
          ((w.inc_2017.getD 0 - w.inc_2023.getD 0) / w.inc_2017.getD 0 * 100)⟩)

/-- A two-row source for the reduction map: one country of the African
region with incidence 10 in 2017 and 5 in 2023. -/
def exT2 : List T2Row :=
  [⟨"Kosovo", "XKX", "AFR", 2017, some 10⟩,
   ⟨"Kosovo", "XKX", "AFR", 2023, some 5⟩]

/-! ## Lemmas and claim theorems -/

/- ### Basic lemmas about cells -/

theorem getCell_append_not_mem (r₁ r₂ : Row) (c : String)
    (h : ∀ p ∈ r₁, p.1 ≠ c) : getCell (r₁ ++ r₂) c = getCell r₂ c := by
  induction r₁ with
  | nil => rfl
  | cons p tl ih =>
    have hp : p.1 ≠ c := h p (by simp)
    simp only [List.cons_append, getCell, if_neg hp]
    exact ih (fun q hq => h q (by simp [hq]))

theorem getCell_setCell (r : Row) (c : String) (v : Value) :
    getCell (setCell r c v) c = v := by
  unfold setCell
  by_cases h : r.any (fun p => p.1 == c) = true
  · rw [if_pos h]
    induction r with
    | nil => simp at h
    | cons p tl ih =>
      by_cases hp : p.1 = c
      · simp [getCell, hp]
      · have htl : tl.any (fun p => p.1 == c) = true := by
          simp only [List.any_cons] at h
          rcases Bool.or_eq_true_iff.mp h with h1 | h2
          · exact absurd (by simpa using h1) hp
          · exact h2
        simpa [getCell, hp] using ih htl
  · rw [if_neg h]
    have h1 : ∀ p ∈ r, p.1 ≠ c := by
      intro p hp
      simp only [List.any_eq_true] at h
      push_neg at h
      simpa using h p hp
    rw [getCell_append_not_mem r _ c h1]
    simp [getCell]

/- ### Lemmas about coercion -/

theorem toNumericValue_idem (v : Value) :
    toNumericValue (toNumericValue v) = toNumericValue v := by
  cases v with
  | num q => rfl
  | null => rfl
  | str s =>
    cases h : parseRat s <;> simp [toNumericValue, h]

theorem getCell_coerceRow_same (c : String) (r : Row) :
    getCell (coerceRow c r) c = toNumericValue (getCell r c) := by
  induction r with
  | nil => rfl
  | cons p tl ih =>
    by_cases hp : p.1 = c
    · simp [coerceRow, getCell, hp]
    · simpa [coerceRow, getCell, hp] using ih

theorem getCell_coerceRow_ne (c c' : String) (r : Row) (h : c' ≠ c) :
    getCell (coerceRow c r) c' = getCell r c' := by
  induction r with
  | nil => rfl
  | cons p tl ih =>
    by_cases hp' : p.1 = c'
    · have hp : ¬p.1 = c := by rw [hp']; exact h
      simp [coerceRow, getCell, hp, hp', h]
    · by_cases hp : p.1 = c
      · simpa [coerceRow, getCell, hp, hp', Ne.symm h] using ih
      · simpa [coerceRow, getCell, hp, hp'] using ih

theorem coerceRow_idem (c : String) (r : Row) :
    coerceRow c (coerceRow c r) = coerceRow c r := by
  unfold coerceRow
  rw [List.map_map]
  apply List.map_congr_left
  intro p _
  by_cases hp : p.1 = c <;> simp [hp, toNumericValue_idem]

theorem numOrNull_toNumericValue (v : Value) : numOrNull (toNumericValue v) := by
  cases v with
  | num q => exact Or.inl ⟨q, rfl⟩
  | null => exact Or.inr rfl
  | str s =>
    cases h : parseRat s with
    | some q => exact Or.inl ⟨q, by simp [toNumericValue, h]⟩
    | none => exact Or.inr (by simp [toNumericValue, h])

theorem getCell_coerceRow_cases (c c' : String) (r : Row) :
    getCell (coerceRow c r) c' = getCell r c' ∨
      getCell (coerceRow c r) c' = toNumericValue (getCell r c') := by
  by_cases h : c' = c
  · subst h
    exact Or.inr (getCell_coerceRow_same c' r)
  · exact Or.inl (getCell_coerceRow_ne c c' r h)

theorem numOrNull_coerceCols_preserved (cs : List String) :
    ∀ (t : Table) (c : String), (∀ r ∈ t, numOrNull (getCell r c)) →
      ∀ r ∈ coerceCols t cs, numOrNull (getCell r c) := by
  induction cs with
  | nil => intro t c h r hr; exact h r hr
  | cons c₀ cs ih =>
    intro t c h r hr
    refine ih (coerceCol t c₀) c ?_ r hr
    intro r' hr'
    rcases List.mem_map.mp hr' with ⟨r₀, hr₀, rfl⟩
    rcases getCell_coerceRow_cases c₀ c r₀ with he | he
    · rw [he]; exact h r₀ hr₀
    · rw [he]; exact numOrNull_toNumericValue _

theorem numOrNull_coerceCols (cs : List String) :
    ∀ (t : Table) (c : String), c ∈ cs →
      ∀ r ∈ coerceCols t cs, numOrNull (getCell r c) := by
  induction cs with
  | nil => intro t c h; exact absurd h (List.not_mem_nil c)
  | cons c₀ cs ih =>
    intro t c hc r hr
    rcases List.mem_cons.mp hc with rfl | hc'
    · by_cases hcs : c ∈ cs
      · exact ih (coerceCol t c) c hcs r hr
      · refine numOrNull_coerceCols_preserved cs (coerceCol t c) c ?_ r hr
        intro r' hr'
        rcases List.mem_map.mp hr' with ⟨r₀, _, rfl⟩
        rw [getCell_coerceRow_same]
        exact numOrNull_toNumericValue _
    · exact ih (coerceCol t c₀) c hc' r hr

/-- C3.  The column resolver succeeds exactly when some header column
matches the logical name case-insensitively; on success it returns a
matching column of the header, and it fails (the `KeyError` of `find_col`,
the spec's `ColumnNotFound`) exactly when no column matches in any case. -/
theorem C3_find_col_case_insensitive_total :
    (∀ (cols : List String) (target : String),
        ((find_col cols target).isSome ↔
          ∃ c ∈ cols, upperString c = upperString target) ∧
        (∀ c, find_col cols target = some c →
          c ∈ cols ∧ upperString c = upperString target) ∧
        (find_col cols target = none ↔
          ∀ c ∈ cols, upperString c ≠ upperString target)) ∧
      find_col ["country", "Year", "value"] "YEAR" = some "Year" ∧
      find_col ["country", "value"] "YEAR" = none := by
  refine ⟨?_, by decide, by decide⟩
  intro cols target
  refine ⟨?_, ?_, ?_⟩
  · constructor
    · intro h
      rcases Option.isSome_iff_exists.mp h with ⟨c, hc⟩
      exact ⟨c, List.mem_of_find?_eq_some hc, by simpa using List.find?_some hc⟩
    · intro ⟨c, hc, hu⟩
      cases hf : find_col cols target with
      | some c' => simp
      | none =>
        exfalso
        rw [find_col, List.find?_eq_none] at hf
        exact hf c hc (by simpa using hu)
  · intro c hc
    exact ⟨List.mem_of_find?_eq_some hc, by simpa using List.find?_some hc⟩
  · rw [find_col, List.find?_eq_none]
    constructor
    · intro h c hc; simpa using h c hc
    · intro h c hc; simpa using h c hc

/-- C4.  After coercing the designated columns and dropping rows with a
missing required value, every surviving row holds a valid number in every
required column (required columns being among the coerced ones, as in
`show_task3` where `VALUE` is both coerced and required); unparseable
strings became missing during coercion; and a table whose rows are all
dropped yields the empty table, not an error. -/
theorem C4_row_drop_guarantee :
    (∀ (t : Table) (cs req : List String), (∀ c ∈ req, c ∈ cs) →
        ∀ r ∈ coerceAndFilter t cs req, ∀ c ∈ req,
          ∃ q, getCell r c = Value.num q) ∧
      (∀ s, parseRat s = none → toNumericValue (Value.str s) = Value.null) ∧
      coerceAndFilter exAllBad ["VALUE"] ["VALUE"] = [] := by
  refine ⟨?_, ?_, by decide⟩
  · intro t cs req hsub r hr c hc
    unfold coerceAndFilter dropnaSubset at hr
    have hmem : r ∈ coerceCols t cs := List.mem_of_mem_filter hr
    have hpred := List.of_mem_filter hr
    have hnn : getCell r c ≠ Value.null := by
      rw [List.all_eq_true] at hpred
      have := hpred c hc
      simpa using this
    rcases numOrNull_coerceCols cs t c (hsub c hc) r hmem with ⟨q, hq⟩ | hnull
    · exact ⟨q, hq⟩
    · exact absurd hnull hnn
  · intro s h
    simp [toNumericValue, h]

/-- Witness for C4 at a concrete input: with required column VALUE among
the coerced columns, the surviving rows of a mixed table all carry numeric
VALUE cells. -/
theorem C4_row_drop_guarantee_witness :
    ∃ q, getCell (coerceRow "VALUE" [("VALUE", Value.str "61")]) "VALUE" = Value.num q :=
  C4_row_drop_guarantee.1 [[("VALUE", Value.str "61")], [("VALUE", Value.str "N/A")]]
    ["VALUE"] ["VALUE"] (by decide)
    (coerceRow "VALUE" [("VALUE", Value.str "61")]) (by decide) "VALUE" (by decide)

/-- C7.  Numeric coercion is idempotent on every table column, the string
"N/A" coerces to the missing marker, and coercing one column never changes
a cell of any other column of the same row. -/
theorem C7_coercion_idempotent :
    (∀ (t : Table) (c : String), coerceCol (coerceCol t c) c = coerceCol t c) ∧
      toNumericValue (Value.str "N/A") = Value.null ∧
      (∀ (r : Row) (c c' : String), c' ≠ c →
        getCell (coerceRow c r) c' = getCell r c') ∧
      coerceRow "VALUE" [("COUNTRY", Value.str "Chad"), ("VALUE", Value.str "N/A")] =
        [("COUNTRY", Value.str "Chad"), ("VALUE", Value.null)] := by
  refine ⟨?_, by decide, ?_, by decide⟩
  · intro t c
    unfold coerceCol
    rw [List.map_map]
    apply List.map_congr_left
    intro r _
    exact coerceRow_idem c r
  · intro r c c' h
    exact getCell_coerceRow_ne c c' r h

/-- Witness for C7 at a concrete input: coercing VALUE leaves the COUNTRY
cell of the same row unchanged. -/
theorem C7_coercion_idempotent_witness :
    getCell (coerceRow "VALUE" [("COUNTRY", Value.str "Chad"), ("VALUE", Value.str "N/A")])
        "COUNTRY" =
      getCell [("COUNTRY", Value.str "Chad"), ("VALUE", Value.str "N/A")] "COUNTRY" :=
  C7_coercion_idempotent.2.2.1
    [("COUNTRY", Value.str "Chad"), ("VALUE", Value.str "N/A")]
    "VALUE" "COUNTRY" (by decide)

/-- C5.  Every row is labelled with exactly one of the two labels: the
label is "Developed" exactly when the country cell is a string belonging
to the static reference set, "Developing" in every other case; the two
labels are distinct and no other label occurs. -/
theorem C5_classifier_two_labels :
    (∀ v : Value, devLabel v = "Developed" ∨ devLabel v = "Developing") ∧
      (∀ v : Value, devLabel v = "Developed" ↔
        ∃ s, v = Value.str s ∧ s ∈ developed_set) ∧
      (∀ (t : Table) (countryCol : String), ∀ r ∈ addDevStatus t countryCol,
        ∃ r₀ ∈ t, getCell r "DEV_STATUS" = Value.str (devLabel (getCell r₀ countryCol))) ∧
      ("Developed" : String) ≠ "Developing" := by
  refine ⟨?_, ?_, ?_, by decide⟩
  · intro v
    cases v with
    | str s =>
      by_cases h : s ∈ developed_set
      · exact Or.inl (by simp [devLabel, h])
      · exact Or.inr (by simp [devLabel, h])
    | num q => exact Or.inr rfl
    | null => exact Or.inr rfl
  · intro v
    constructor
    · intro h
      cases v with
      | str s =>
        by_cases hs : s ∈ developed_set
        · exact ⟨s, rfl, hs⟩
        · simp [devLabel, hs] at h
      | num q => simp [devLabel] at h
      | null => simp [devLabel] at h
    · rintro ⟨s, rfl, hs⟩
      simp [devLabel, hs]
  · intro t countryCol r hr
    rcases List.mem_map.mp hr with ⟨r₀, hr₀, rfl⟩
    exact ⟨r₀, hr₀, getCell_setCell _ _ _⟩

/-- Witness for C5 at a concrete input: the one row of a one-row table is
labelled, and its label is "Developed" since France is in the reference
set. -/
theorem C5_classifier_two_labels_witness :
    (∃ r₀ ∈ ([[("COUNTRY", Value.str "France")]] : Table),
        getCell (setCell [("COUNTRY", Value.str "France")] "DEV_STATUS"
            (.str (devLabel (getCell [("COUNTRY", Value.str "France")] "COUNTRY"))))
            "DEV_STATUS" =
          Value.str (devLabel (getCell r₀ "COUNTRY"))) ∧
      devLabel (Value.str "France") = "Developed" :=
  ⟨C5_classifier_two_labels.2.2.1 [[("COUNTRY", Value.str "France")]] "COUNTRY"
      (setCell [("COUNTRY", Value.str "France")] "DEV_STATUS"
        (.str (devLabel (getCell [("COUNTRY", Value.str "France")] "COUNTRY"))))
      (by simp [addDevStatus]),
    (C5_classifier_two_labels.2.1 (Value.str "France")).mpr ⟨"France", rfl, by decide⟩⟩

/- ### Lemmas about ranking -/

theorem lt_length_of_getD_some {vals : List (Option ℚ)} {i : Nat} {v : ℚ}
    (h : vals.getD i none = some v) : i < vals.length := by
  by_contra hle
  push_neg at hle
  rw [List.getD_eq_getElem?_getD, List.getElem?_eq_none hle] at h
  simp at h

theorem getElem_of_getD_some {vals : List (Option ℚ)} {i : Nat} {v : ℚ}
    (h : vals.getD i none = some v) :
    ∃ hi : i < vals.length, vals[i] = some v := by
  have hi := lt_length_of_getD_some h
  refine ⟨hi, ?_⟩
  rwa [List.getD_eq_getElem?_getD, List.getElem?_eq_getElem hi, Option.getD_some] at h

theorem countP_add_countP_le {α : Type} (p q r : α → Bool) (l : List α)
    (hp : ∀ a, p a = true → r a = true) (hq : ∀ a, q a = true → r a = true)
    (hdisj : ∀ a, ¬(p a = true ∧ q a = true)) :
    l.countP p + l.countP q ≤ l.countP r := by
  induction l with
  | nil => simp
  | cons a l ih =>
    rw [List.countP_cons, List.countP_cons, List.countP_cons]
    have hra1 := hp a
    have hra2 := hq a
    have hd := hdisj a
    cases hpa : p a <;> cases hqa : q a <;> cases hra : r a <;>
      simp_all <;> omega

theorem countEqBefore_lt_take {vals : List (Option ℚ)} {i j : Nat} {v : ℚ}
    (hij : i < j) (h : vals.getD i none = some v) :
    countEqBefore vals i v + 1 ≤ countEqBefore vals j v := by
  rcases getElem_of_getD_some h with ⟨hi, hget⟩
  unfold countEqBefore
  have hj : j = i + (j - i) := by omega
  rw [hj, List.take_add, List.countP_append]
  have hdrop : vals.drop i = vals[i] :: vals.drop (i + 1) :=
    List.drop_eq_getElem_cons hi
  have hpos : 1 ≤ ((vals.drop i).take (j - i)).countP (isEqV v) := by
    rw [hdrop]
    have : 0 < j - i := by omega
    cases hji : j - i with
    | zero => omega
    | succ m =>
      rw [List.take_succ_cons, List.countP_cons]
      have : isEqV v vals[i] = true := by rw [hget]; simp [isEqV]
      simp [this]
  omega

theorem countEqBefore_lt_total {vals : List (Option ℚ)} {i : Nat} {v : ℚ}
    (h : vals.getD i none = some v) :
    countEqBefore vals i v + 1 ≤ vals.countP (isEqV v) := by
  rcases getElem_of_getD_some h with ⟨hi, hget⟩
  conv_rhs => rw [← List.take_append_drop i vals]
  rw [List.countP_append]
  have hdrop : vals.drop i = vals[i] :: vals.drop (i + 1) :=
    List.drop_eq_getElem_cons hi
  have hpos : 1 ≤ (vals.drop i).countP (isEqV v) := by
    rw [hdrop, List.countP_cons]
    have : isEqV v vals[i] = true := by rw [hget]; simp [isEqV]
    simp [this]
  unfold countEqBefore
  omega

theorem rank_lt_of_value_gt {vals : List (Option ℚ)} {i j : Nat} {vi vj : ℚ}
    (hi : vals.getD i none = some vi) (hj : vals.getD j none = some vj)
    (hv : vj < vi) :
    ∃ ki kj, rankFirstDesc vals i = some ki ∧ rankFirstDesc vals j = some kj ∧
      ki < kj := by
  refine ⟨_, _, by rw [rankFirstDesc, hi], by rw [rankFirstDesc, hj], ?_⟩
  have h1 : vals.countP (isGtV vi) + vals.countP (isEqV vi) ≤
      vals.countP (isGtV vj) := by
    apply countP_add_countP_le
    · intro a ha
      cases a with
      | none => simp [isGtV] at ha
      | some q =>
        simp only [isGtV, decide_eq_true_eq] at ha ⊢
        exact lt_trans hv ha
    · intro a ha
      cases a with
      | none => simp [isEqV] at ha
      | some q =>
        simp only [isEqV, decide_eq_true_eq] at ha
        simp only [isGtV, decide_eq_true_eq]
        rw [ha]; exact hv
    · intro a ⟨hp, hq⟩
      cases a with
      | none => simp [isGtV] at hp
      | some q =>
        simp only [isGtV, decide_eq_true_eq] at hp
        simp only [isEqV, decide_eq_true_eq] at hq
        rw [hq] at hp
        exact lt_irrefl vi hp
  have h2 := countEqBefore_lt_total hi
  unfold countGreater
  omega

theorem rank_lt_of_tie {vals : List (Option ℚ)} {i j : Nat} {v : ℚ}
    (hij : i < j) (hi : vals.getD i none = some v)
    (hj : vals.getD j none = some v) :
    ∃ ki kj, rankFirstDesc vals i = some ki ∧ rankFirstDesc vals j = some kj ∧
      ki < kj := by
  refine ⟨_, _, by rw [rankFirstDesc, hi], by rw [rankFirstDesc, hj], ?_⟩
  have := countEqBefore_lt_take hij hi
  omega

theorem getD_some_of_rank_some {vals : List (Option ℚ)} {i k : Nat}
    (h : rankFirstDesc vals i = some k) :
    ∃ v, vals.getD i none = some v := by
  unfold rankFirstDesc at h
  cases hg : vals.getD i none with
  | none => rw [hg] at h; simp at h
  | some v => exact ⟨v, rfl⟩

theorem rank_ne_of_ne {vals : List (Option ℚ)} {i j : Nat} (hne : i ≠ j)
    {ki kj : Nat} (hi : rankFirstDesc vals i = some ki)
    (hj : rankFirstDesc vals j = some kj) : ki ≠ kj := by
  rcases getD_some_of_rank_some hi with ⟨vi, hgi⟩
  rcases getD_some_of_rank_some hj with ⟨vj, hgj⟩
  rcases lt_trichotomy vi vj with hv | hv | hv
  · rcases rank_lt_of_value_gt hgj hgi hv with ⟨a, b, ha, hb, hab⟩
    rw [hj] at ha
    rw [hi] at hb
    cases ha; cases hb
    omega
  · subst hv
    rcases lt_or_gt_of_ne hne with hij | hij
    · rcases rank_lt_of_tie hij hgi hgj with ⟨a, b, ha, hb, hab⟩
      rw [hi] at ha
      rw [hj] at hb
      cases ha; cases hb
      omega
    · rcases rank_lt_of_tie hij hgj hgi with ⟨a, b, ha, hb, hab⟩
      rw [hj] at ha
      rw [hi] at hb
      cases ha; cases hb
      omega
  · rcases rank_lt_of_value_gt hgi hgj hv with ⟨a, b, ha, hb, hab⟩
    rw [hi] at ha
    rw [hj] at hb
    cases ha; cases hb
    omega

theorem rank_pos_of_some {vals : List (Option ℚ)} {i k : Nat}
    (h : rankFirstDesc vals i = some k) : 1 ≤ k := by
  rcases getD_some_of_rank_some h with ⟨v, hg⟩
  unfold rankFirstDesc at h
  rw [hg] at h
  simp only [Option.some.injEq] at h
  omega

theorem length_filter_keepTop_le (vals : List (Option ℚ)) (K : Nat) :
    ((List.range vals.length).filter (keepTop K vals)).length ≤ K := by
  classical
  set L := (List.range vals.length).filter (keepTop K vals) with hL
  have hnd : L.Nodup := (List.nodup_range _).filter _
  have hmem : ∀ i ∈ L, ∃ k, rankFirstDesc vals i = some k ∧ 1 ≤ k ∧ k ≤ K := by
    intro i hi
    have hkeep := List.of_mem_filter hi
    unfold keepTop at hkeep
    cases hr : rankFirstDesc vals i with
    | none => rw [hr] at hkeep; simp at hkeep
    | some k =>
      rw [hr] at hkeep
      exact ⟨k, rfl, rank_pos_of_some hr, by simpa using hkeep⟩
  have hndm : (L.map (fun i => (rankFirstDesc vals i).getD 0)).Nodup := by
    refine List.Nodup.map_on ?_ hnd
    intro x hx y hy hxy
    by_contra hne
    rcases hmem x hx with ⟨kx, hkx, _, _⟩
    rcases hmem y hy with ⟨ky, hky, _, _⟩
    rw [hkx, hky] at hxy
    simp only [Option.getD_some] at hxy
    exact rank_ne_of_ne hne hkx hky hxy
  have hsub : (L.map (fun i => (rankFirstDesc vals i).getD 0)).toFinset ⊆
      Finset.Icc 1 K := by
    intro m hm
    rw [List.mem_toFinset] at hm
    rcases List.mem_map.mp hm with ⟨i, hiL, rfl⟩
    rcases hmem i hiL with ⟨k, hk, h1, h2⟩
    rw [hk]
    simp only [Option.getD_some]
    exact Finset.mem_Icc.mpr ⟨h1, h2⟩
  have hcard : L.length =
      (L.map (fun i => (rankFirstDesc vals i).getD 0)).toFinset.card := by
    rw [List.toFinset_card_of_nodup hndm, List.length_map]
  rw [hcard]
  calc (L.map (fun i => (rankFirstDesc vals i).getD 0)).toFinset.card
      ≤ (Finset.Icc 1 K).card := Finset.card_le_card hsub
    _ = K := by rw [Nat.card_Icc]; omega

theorem enum_filter_length {α : Type} (l : List α) (f : Nat → Bool) :
    (l.enum.filter (fun p => f p.1)).length =
      ((List.range l.length).filter f).length := by
  have h : (l.enum.map Prod.fst).filter f =
      (l.enum.filter (fun p => f p.1)).map Prod.fst := by
    rw [List.filter_map]
    rfl
  rw [← List.enum_map_fst l, h, List.length_map]

/-- C1.  The Top-K ranker first restricts to the rows of the requested
year, ranks that partition by value descending with first-occurrence-wins
tie-break, and keeps at most K rows, each taken from the requested-year
partition of the input; ties give the earlier row the better (smaller)
rank and larger values always get better ranks; on the spec's example with
K = 2 the output is exactly the rows of D and B (in input order B, D), and
B beats C: B has rank 2, C rank 3. -/
theorem C1_topk_filter_rank_stable :
    (∀ (t : Table) (yearCol valueCol : String) (y : ℚ) (K : Nat),
        (topKOfYear t yearCol valueCol y K).length ≤ K ∧
        ∀ r ∈ topKOfYear t yearCol valueCol y K,
          getCell r yearCol = Value.num y ∧ r ∈ t) ∧
      (∀ (vals : List (Option ℚ)) (i j : Nat) (v : ℚ), i < j →
        vals.getD i none = some v → vals.getD j none = some v →
        ∃ ki kj, rankFirstDesc vals i = some ki ∧
          rankFirstDesc vals j = some kj ∧ ki < kj) ∧
      (∀ (vals : List (Option ℚ)) (i j : Nat) (vi vj : ℚ),
        vals.getD i none = some vi → vals.getD j none = some vj → vj < vi →
        ∃ ki kj, rankFirstDesc vals i = some ki ∧
          rankFirstDesc vals j = some kj ∧ ki < kj) ∧
      (topKOfYear exTop "year" "value" 2020 2).map
          (fun r => getCell r "country") = [Value.str "B", Value.str "D"] ∧
      rankFirstDesc exTopVals 1 = some 2 ∧
      rankFirstDesc exTopVals 2 = some 3 := by
  refine ⟨?_, ?_, ?_, by decide, by decide, by decide⟩
  · intro t yearCol valueCol y K
    constructor
    · show (((t.filter (fun r => getCell r yearCol == Value.num y)).enum.filter
        (fun p => keepTop K ((t.filter (fun r => getCell r yearCol == Value.num y)).map
          (fun r => cellNum? (getCell r valueCol))) p.1)).map Prod.snd).length ≤ K
      rw [List.length_map, enum_filter_length]
      have hlen : (t.filter (fun r => getCell r yearCol == Value.num y)).length =
          ((t.filter (fun r => getCell r yearCol == Value.num y)).map
            (fun r => cellNum? (getCell r valueCol))).length := by
        rw [List.length_map]
      rw [hlen]
      exact length_filter_keepTop_le _ K
    · intro r hr
      unfold topKOfYear at hr
      rcases List.mem_map.mp hr with ⟨p, hp, rfl⟩
      have hpart : p.2 ∈ t.filter (fun r => getCell r yearCol == Value.num y) :=
        List.snd_mem_of_mem_enum (List.mem_of_mem_filter hp)
      have hyear := List.of_mem_filter hpart
      constructor
      · simpa using hyear
      · exact List.mem_of_mem_filter hpart
  · intro vals i j v hij hi hj
    exact rank_lt_of_tie hij hi hj
  · intro vals i j vi vj hi hj hv
    exact rank_lt_of_value_gt hi hj hv

/-- Witness for C1 at concrete inputs: the general bound and membership
facts at the example table, and the tie-break at positions 1 and 2 of the
example value column. -/
theorem C1_topk_filter_rank_stable_witness :
    ((topKOfYear exTop "year" "value" 2020 2).length ≤ 2 ∧
      (∃ ki kj, rankFirstDesc exTopVals 1 = some ki ∧
        rankFirstDesc exTopVals 2 = some kj ∧ ki < kj)) ∧
      getCell [("year", Value.num 2020), ("country", Value.str "B"),
          ("value", Value.num 70)] "year" = Value.num 2020 :=
  ⟨⟨(C1_topk_filter_rank_stable.1 exTop "year" "value" 2020 2).1,
    C1_topk_filter_rank_stable.2.1 exTopVals 1 2 70 (by decide) (by decide)
      (by decide)⟩,
    ((C1_topk_filter_rank_stable.1 exTop "year" "value" 2020 2).2
        [("year", Value.num 2020), ("country", Value.str "B"),
          ("value", Value.num 70)] (by decide)).1⟩

/- ### Lemmas about the matched sample -/

theorem mem_firstOccur_aux (l acc : List String) (c : String) :
    c ∈ l.foldl (fun acc c => if c ∈ acc then acc else acc ++ [c]) acc ↔
      c ∈ acc ∨ c ∈ l := by
  induction l generalizing acc with
  | nil => simp
  | cons a l ih =>
    rw [List.foldl_cons, ih]
    by_cases ha : a ∈ acc
    · simp only [if_pos ha, List.mem_cons]
      constructor
      · rintro (h | h)
        · exact Or.inl h
        · exact Or.inr (Or.inr h)
      · rintro (h | rfl | h)
        · exact Or.inl h
        · exact Or.inl ha
        · exact Or.inr h
    · simp only [if_neg ha, List.mem_append, List.mem_singleton, List.mem_cons]
      tauto

theorem mem_firstOccur (l : List String) (c : String) :
    c ∈ firstOccur l ↔ c ∈ l := by
  rw [firstOccur, mem_firstOccur_aux]
  simp

theorem nodup_firstOccur_aux (l : List String) :
    ∀ acc : List String, acc.Nodup →
      (l.foldl (fun acc c => if c ∈ acc then acc else acc ++ [c]) acc).Nodup := by
  induction l with
  | nil => intro acc h; simpa using h
  | cons a l ih =>
    intro acc h
    rw [List.foldl_cons]
    by_cases ha : a ∈ acc
    · rw [if_pos ha]; exact ih acc h
    · rw [if_neg ha]
      refine ih _ ?_
      simp [List.nodup_append, h, ha]

theorem nodup_firstOccur (l : List String) : (firstOccur l).Nodup :=
  nodup_firstOccur_aux l [] List.nodup_nil

theorem nodup_sortedCountries (t : List CRow) : (sortedCountries t).Nodup :=
  ((List.perm_insertionSort _ _).nodup_iff).mpr (nodup_firstOccur _)

theorem mem_sortedCountries (t : List CRow) (c : String) :
    c ∈ sortedCountries t ↔ ∃ r ∈ t, r.country = c := by
  rw [sortedCountries, List.mem_insertionSort, mem_firstOccur]
  simp only [List.mem_map]

theorem map_fst_mean_df (t : List CRow) :
    (mean_df t).map Prod.fst = sortedCountries t := by
  rw [mean_df, List.map_map]
  exact List.map_id _

theorem mem_mean_df (t : List CRow) (e : String × String × ℚ) :
    e ∈ mean_df t ↔
      e.1 ∈ sortedCountries t ∧ e = (e.1, devStatus e.1, meanValue t e.1) := by
  rw [mean_df, List.mem_map]
  constructor
  · rintro ⟨c, hc, rfl⟩
    exact ⟨hc, rfl⟩
  · rintro ⟨hc, he⟩
    exact ⟨e.1, hc, he.symm⟩

theorem map_fst_nodup_mean_df (t : List CRow) :
    ((mean_df t).map (fun e : String × String × ℚ => e.1)).Nodup := by
  have h : ((mean_df t).map (fun e : String × String × ℚ => e.1)) = sortedCountries t :=
    map_fst_mean_df t
  rw [h]
  exact nodup_sortedCountries t

theorem nodup_worstDeveloping (t : List CRow) : (worstDeveloping t).Nodup := by
  unfold worstDeveloping
  rw [List.map_take]
  apply List.Sublist.nodup (List.take_sublist _ _)
  refine ((List.Perm.map _ (List.perm_insertionSort _ _)).nodup_iff).mpr ?_
  exact List.Sublist.nodup ((List.filter_sublist _).map _) (map_fst_nodup_mean_df t)

theorem mem_worstDeveloping (t : List CRow) (c : String)
    (hc : c ∈ worstDeveloping t) :
    c ∈ sortedCountries t ∧ devStatus c = "Developing" := by
  unfold worstDeveloping at hc
  rcases List.mem_map.mp hc with ⟨e, he, rfl⟩
  have heL := List.mem_of_mem_take he
  rw [List.mem_insertionSort] at heL
  have hemdf := List.mem_of_mem_filter heL
  have hstat := List.of_mem_filter heL
  rcases (mem_mean_df t e).mp hemdf with ⟨hc1, he2⟩
  refine ⟨hc1, ?_⟩
  have : e.2.1 = "Developing" := by simpa using hstat
  rw [he2] at this
  simpa using this

theorem length_filter_mean_df (t : List CRow) (s : String) :
    (((mean_df t)).filter (fun e => e.2.1 == s)).length =
      ((sortedCountries t).filter (fun c => devStatus c == s)).length := by
  rw [← List.countP_eq_length_filter, ← List.countP_eq_length_filter,
    mean_df, List.countP_map]
  rfl

theorem length_worstDeveloping (t : List CRow) :
    (worstDeveloping t).length = min (devN t) (developingCount t) := by
  unfold worstDeveloping
  rw [List.length_map, List.length_take, List.length_insertionSort]
  unfold developingCount
  rw [length_filter_mean_df]

theorem countries_matchedDeveloped (t : List CRow) :
    countriesOf (matchedDeveloped t) =
      ((sortedCountries t).filter (fun c => devStatus c == "Developed")).toFinset := by
  ext c
  rw [countriesOf, List.mem_toFinset, List.mem_toFinset, List.mem_filter]
  constructor
  · intro h
    rcases List.mem_map.mp h with ⟨r, hr, rfl⟩
    have hmem := List.mem_of_mem_filter hr
    have hstat := List.of_mem_filter hr
    exact ⟨(mem_sortedCountries t _).mpr ⟨r, hmem, rfl⟩, hstat⟩
  · rintro ⟨hmem, hstat⟩
    rcases (mem_sortedCountries t c).mp hmem with ⟨r, hr, rfl⟩
    refine List.mem_map.mpr ⟨r, ?_, rfl⟩
    exact List.mem_filter_of_mem hr hstat

theorem countries_matchedDeveloping (t : List CRow) :
    countriesOf (matchedDeveloping t) = (worstDeveloping t).toFinset := by
  ext c
  rw [countriesOf, List.mem_toFinset, List.mem_toFinset]
  constructor
  · intro h
    rcases List.mem_map.mp h with ⟨r, hr, rfl⟩
    have hstat := List.of_mem_filter hr
    rw [Bool.and_eq_true] at hstat
    have := hstat.2
    simpa [List.contains] using this
  · intro h
    rcases mem_worstDeveloping t c h with ⟨hsc, hdev⟩
    rcases (mem_sortedCountries t c).mp hsc with ⟨r, hr, rfl⟩
    refine List.mem_map.mpr ⟨r, ?_, rfl⟩
    refine List.mem_filter_of_mem hr ?_
    rw [Bool.and_eq_true]
    refine ⟨by simpa using hdev, ?_⟩
    simp [List.contains, h]

theorem char_toNat_inj {a b : Char} (h : a.toNat = b.toNat) : a = b := by
  unfold Char.toNat at h
  exact Char.eq_of_val_eq (UInt32.toNat.inj h)

theorem charListLe_total : ∀ as bs : List Char,
    charListLe as bs = true ∨ charListLe bs as = true := by
  intro as
  induction as with
  | nil => intro bs; left; simp [charListLe]
  | cons a as ih =>
    intro bs
    cases bs with
    | nil => right; simp [charListLe]
    | cons b bs =>
      by_cases hab : a = b
      · subst hab
        rcases ih bs with h | h
        · left; simpa [charListLe] using h
        · right; simpa [charListLe] using h
      · have hne : a.toNat ≠ b.toNat := fun h => hab (char_toNat_inj h)
        rcases Nat.lt_or_ge a.toNat b.toNat with h | h
        · left; simp [charListLe, hab, h]
        · right
          have hlt : b.toNat < a.toNat := by omega
          simp [charListLe, Ne.symm hab, hlt]

theorem charListLe_trans : ∀ as bs cs : List Char, charListLe as bs = true →
    charListLe bs cs = true → charListLe as cs = true := by
  intro as
  induction as with
  | nil => intro bs cs h1 h2; simp [charListLe]
  | cons a as ih =>
    intro bs cs hab hbc
    cases bs with
    | nil => simp [charListLe] at hab
    | cons b bs =>
      cases cs with
      | nil => simp [charListLe] at hbc
      | cons c cs =>
        by_cases h1 : a = b
        · subst h1
          by_cases h2 : a = c
          · subst h2
            simp only [charListLe, if_pos rfl] at hab hbc ⊢
            exact ih bs cs hab hbc
          · simp only [charListLe, if_pos rfl, if_neg h2] at hab hbc ⊢
            exact hbc
        · by_cases h2 : b = c
          · subst h2
            simp only [charListLe, if_neg h1] at hab ⊢
            exact hab
          · simp only [charListLe, if_neg h1, if_neg h2,
              decide_eq_true_eq] at hab hbc
            have hac : a.toNat < c.toNat := lt_trans hab hbc
            have hne : ¬a = c := fun h => by subst h; omega
            simp only [charListLe, if_neg hne, decide_eq_true_eq]
            exact hac

theorem charListLe_antisymm : ∀ as bs : List Char, charListLe as bs = true →
    charListLe bs as = true → as = bs := by
  intro as
  induction as with
  | nil =>
    intro bs h1 h2
    cases bs with
    | nil => rfl
    | cons b bs => simp [charListLe] at h2
  | cons a as ih =>
    intro bs h1 h2
    cases bs with
    | nil => simp [charListLe] at h1
    | cons b bs =>
      by_cases hab : a = b
      · subst hab
        simp only [charListLe, if_pos rfl] at h1 h2
        rw [ih bs h1 h2]
      · have hba : ¬b = a := fun h => hab h.symm
        simp only [charListLe, if_neg hab, if_neg hba,
          decide_eq_true_eq] at h1 h2
        omega

theorem strLe_total (a b : String) : strLe a b = true ∨ strLe b a = true :=
  charListLe_total a.data b.data

theorem strLe_trans (a b c : String) (h1 : strLe a b = true)
    (h2 : strLe b c = true) : strLe a c = true :=
  charListLe_trans a.data b.data c.data h1 h2

theorem strLe_antisymm (a b : String) (h1 : strLe a b = true)
    (h2 : strLe b a = true) : a = b := by
  have h := charListLe_antisymm a.data b.data h1 h2
  cases a
  cases b
  exact congrArg String.mk h

theorem sorted_sortedCountries (t : List CRow) :
    List.Sorted (fun a b => strLe a b = true) (sortedCountries t) :=
  @List.sorted_insertionSort String (fun a b => strLe a b = true)
    (fun a b => inferInstanceAs (Decidable (strLe a b = true)))
    ⟨fun a b => strLe_total a b⟩
    ⟨fun a b c hab hbc => strLe_trans a b c hab hbc⟩ _

theorem sorted_means (t : List CRow) :
    List.Sorted (fun a b : String × String × ℚ => a.2.2 ≤ b.2.2)
      (((mean_df t).filter (fun e => e.2.1 == "Developing")).insertionSort
        (fun a b => a.2.2 ≤ b.2.2)) :=
  @List.sorted_insertionSort (String × String × ℚ)
    (fun a b => a.2.2 ≤ b.2.2)
    (fun a b => inferInstanceAs (Decidable (a.2.2 ≤ b.2.2)))
    ⟨fun a b => le_total a.2.2 b.2.2⟩
    ⟨fun _ _ _ hab hbc => le_trans hab hbc⟩ _

theorem worst_le_unselected (t : List CRow) :
    ∀ c ∈ worstDeveloping t, ∀ c' ∈ sortedCountries t,
      devStatus c' = "Developing" → c' ∉ worstDeveloping t →
      meanValue t c ≤ meanValue t c' := by
  intro c hc c' hc' hdev hnot
  rcases List.mem_map.mp hc with ⟨e, he, rfl⟩
  have heL := List.mem_of_mem_take he
  have heF := (List.mem_insertionSort _).mp heL
  have hemdf := List.mem_of_mem_filter heF
  rcases (mem_mean_df t e).mp hemdf with ⟨_, he2⟩
  have he'F : (c', devStatus c', meanValue t c') ∈
      (mean_df t).filter (fun e => e.2.1 == "Developing") := by
    refine List.mem_filter_of_mem ?_ ?_
    · exact (mem_mean_df t _).mpr ⟨hc', rfl⟩
    · simpa using hdev
  have he'L := (List.mem_insertionSort (fun a b : String × String × ℚ =>
    a.2.2 ≤ b.2.2)).mpr he'F
  have he'drop : (c', devStatus c', meanValue t c') ∈
      (((mean_df t).filter (fun e => e.2.1 == "Developing")).insertionSort
        (fun a b => a.2.2 ≤ b.2.2)).drop (devN t) := by
    have hsplit : (c', devStatus c', meanValue t c') ∈
        ((((mean_df t).filter (fun e => e.2.1 == "Developing")).insertionSort
            (fun a b => a.2.2 ≤ b.2.2)).take (devN t)) ++
          ((((mean_df t).filter (fun e => e.2.1 == "Developing")).insertionSort
            (fun a b => a.2.2 ≤ b.2.2)).drop (devN t)) := by
      rw [List.take_append_drop]
      exact he'L
    rcases List.mem_append.mp hsplit with h1 | h2
    · exact absurd (List.mem_map.mpr ⟨_, h1, rfl⟩) hnot
    · exact h2
  have hle := (sorted_means t).rel_of_mem_take_of_mem_drop he he'drop
  have hee : e.2.2 = meanValue t e.1 := by rw [he2]
  rw [hee] at hle
  exact hle

theorem meanValue_exMatch_Z : meanValue exMatch "Zimbabwe" = 10 := by
  unfold meanValue
  rw [show exMatch.filter (fun r => r.country = "Zimbabwe") = [⟨"Zimbabwe", 10⟩] from by decide]
  norm_num

theorem meanValue_exMatch_A : meanValue exMatch "Angola" = 10 := by
  unfold meanValue
  rw [show exMatch.filter (fun r => r.country = "Angola") = [⟨"Angola", 10⟩] from by decide]
  norm_num

theorem meanValue_exMatch_F : meanValue exMatch "France" = 50 := by
  unfold meanValue
  rw [show exMatch.filter (fun r => r.country = "France") = [⟨"France", 50⟩] from by decide]
  norm_num

theorem sortedCountries_exMatch :
    sortedCountries exMatch = ["Angola", "France", "Zimbabwe"] := by
  decide

theorem mean_df_exMatch :
    mean_df exMatch = [("Angola", "Developing", 10), ("France", "Developed", 50),
      ("Zimbabwe", "Developing", 10)] := by
  rw [mean_df, sortedCountries_exMatch]
  simp only [List.map_cons, List.map_nil, meanValue_exMatch_A,
    meanValue_exMatch_F, meanValue_exMatch_Z]
  decide

theorem devN_exMatch : devN exMatch = 1 := by
  rw [devN, mean_df_exMatch]
  decide

theorem worstDeveloping_exMatch : worstDeveloping exMatch = ["Angola"] := by
  rw [worstDeveloping, mean_df_exMatch, devN_exMatch]
  decide

theorem specWorstDeveloping_exMatch :
    specWorstDeveloping exMatch = ["Zimbabwe"] := by
  rw [specWorstDeveloping, devN_exMatch,
    show (firstOccur (exMatch.map CRow.country)).filter
        (fun c => devStatus c == "Developing") = ["Zimbabwe", "Angola"] from by decide]
  simp only [List.map_cons, List.map_nil, meanValue_exMatch_Z, meanValue_exMatch_A]
  decide

theorem matchedDeveloping_exMatch :
    matchedDeveloping exMatch = [⟨"Angola", 10⟩] := by
  rw [matchedDeveloping, worstDeveloping_exMatch]
  decide

/-- Counterexample to C2 as stated: on `exMatch` the source selects
Angola (the alphabetically first of the two equal-mean Developing
countries, since the groupby pre-sorts countries), so the matched sample
holds the Angola row; the claim's tie-break by stable input order would
select Zimbabwe instead. -/
theorem C2_matched_sample_counterexample :
    worstDeveloping exMatch = ["Angola"] ∧
      matchedDeveloping exMatch = [⟨"Angola", 10⟩] ∧
      specWorstDeveloping exMatch = ["Zimbabwe"] ∧
      worstDeveloping exMatch ≠ specWorstDeveloping exMatch := by
  refine ⟨worstDeveloping_exMatch, matchedDeveloping_exMatch,
    specWorstDeveloping_exMatch, ?_⟩
  rw [worstDeveloping_exMatch, specWorstDeveloping_exMatch]
  decide

/-- C2 (amended).  The matched sample holds every Developed row; its
Developed part spans exactly `devN` (= n) distinct countries and its
Developing part exactly `min n d` distinct countries, where `d` is the
number of distinct Developing countries; every selected Developing
country is Developing and its mean is at most the mean of every
unselected Developing country.  (Ties among equal means follow the sort
over the alphabetically grouped per-country means, not input-table row
order.) -/
theorem C2_matched_sample_amended :
    ∀ t : List CRow,
      (countriesOf (matchedDeveloped t)).card = devN t ∧
      (countriesOf (matchedDeveloping t)).card =
        min (devN t) (developingCount t) ∧
      (∀ r ∈ t, devStatus r.country = "Developed" → r ∈ matchedDeveloped t) ∧
      (∀ c ∈ worstDeveloping t, devStatus c = "Developing") ∧
      (∀ c ∈ worstDeveloping t, ∀ c' ∈ sortedCountries t,
        devStatus c' = "Developing" → c' ∉ worstDeveloping t →
        meanValue t c ≤ meanValue t c') := by
  intro t
  refine ⟨?_, ?_, ?_, ?_, worst_le_unselected t⟩
  · rw [countries_matchedDeveloped,
      List.toFinset_card_of_nodup ((nodup_sortedCountries t).filter _),
      devN, length_filter_mean_df]
  · rw [countries_matchedDeveloping,
      List.toFinset_card_of_nodup (nodup_worstDeveloping t),
      length_worstDeveloping]
  · intro r hr hdev
    exact List.mem_filter_of_mem hr (by simpa using hdev)
  · intro c hc
    exact (mem_worstDeveloping t c hc).2

/-- Witness for the amended C2 at the concrete input `exMatch`: the
selected country Angola has mean at most that of the unselected Zimbabwe,
and the Developed France row belongs to the matched sample. -/
theorem C2_matched_sample_amended_witness :
    meanValue exMatch "Angola" ≤ meanValue exMatch "Zimbabwe" ∧
      (⟨"France", 50⟩ : CRow) ∈ matchedDeveloped exMatch :=
  ⟨(C2_matched_sample_amended exMatch).2.2.2.2 "Angola"
      (by simp [worstDeveloping_exMatch]) "Zimbabwe"
      (by rw [sortedCountries_exMatch]; decide) (by decide)
      (by simp [worstDeveloping_exMatch]),
    (C2_matched_sample_amended exMatch).2.2.1 ⟨"France", 50⟩ (by decide) (by decide)⟩

/-- C9.  The matched-sample computation is a pure function of the input
data: permuting the input rows changes nothing (per-country means, the
sorted country list, `mean_df`, `devN`, and the selected Developing
countries are all invariant, and the row labels are permuted alike), so
two runs over the same table always select the same countries — nothing
random enters the computation. -/
theorem C9_matched_sample_deterministic :
    ∀ t₁ t₂ : List CRow, t₁.Perm t₂ →
      (∀ c, meanValue t₁ c = meanValue t₂ c) ∧
      sortedCountries t₁ = sortedCountries t₂ ∧
      mean_df t₁ = mean_df t₂ ∧
      devN t₁ = devN t₂ ∧
      worstDeveloping t₁ = worstDeveloping t₂ ∧
      (t₁.map (fun r => devStatus r.country)).Perm
        (t₂.map (fun r => devStatus r.country)) := by
  intro t₁ t₂ hp
  have hmean : ∀ c, meanValue t₁ c = meanValue t₂ c := by
    intro c
    unfold meanValue
    have hm : ((t₁.filter (fun r => r.country = c)).map CRow.value).Perm
        ((t₂.filter (fun r => r.country = c)).map CRow.value) :=
      (hp.filter _).map _
    rw [hm.sum_eq, hm.length_eq]
  have hfo : (firstOccur (t₁.map CRow.country)).Perm
      (firstOccur (t₂.map CRow.country)) := by
    rw [List.perm_ext_iff_of_nodup (nodup_firstOccur _) (nodup_firstOccur _)]
    intro a
    rw [mem_firstOccur, mem_firstOccur, (hp.map CRow.country).mem_iff]
  have hsc : sortedCountries t₁ = sortedCountries t₂ := by
    refine @List.eq_of_perm_of_sorted String (fun a b => strLe a b = true)
      ⟨fun a b hab hba => strLe_antisymm a b hab hba⟩ _ _
      (((List.perm_insertionSort _ _).trans hfo).trans
        (List.perm_insertionSort _ _).symm)
      (sorted_sortedCountries t₁) (sorted_sortedCountries t₂)
  have hmdf : mean_df t₁ = mean_df t₂ := by
    rw [mean_df, mean_df, hsc]
    exact List.map_congr_left (fun c _ => by rw [hmean c])
  refine ⟨hmean, hsc, hmdf, ?_, ?_, hp.map _⟩
  · rw [devN, devN, hmdf]
  · rw [worstDeveloping, worstDeveloping, hmdf, devN, devN, hmdf]

/-- Witness for C9 at concrete inputs: swapping the two rows of a table
leaves the selected Developing countries unchanged. -/
theorem C9_matched_sample_deterministic_witness :
    worstDeveloping [(⟨"Benin", 3⟩ : CRow), ⟨"Chad", 4⟩] =
      worstDeveloping [(⟨"Chad", 4⟩ : CRow), ⟨"Benin", 3⟩] :=
  (C9_matched_sample_deterministic
    [⟨"Benin", 3⟩, ⟨"Chad", 4⟩] [⟨"Chad", 4⟩, ⟨"Benin", 3⟩]
    (List.Perm.swap _ _ _)).2.2.2.2.1

/-- Witness for C3 at a concrete input: resolving YEAR in a header that
spells it "Year" returns that column, which matches case-insensitively. -/
theorem C3_find_col_case_insensitive_total_witness :
    "Year" ∈ ["country", "Year", "value"] ∧
      upperString "Year" = upperString "YEAR" :=
  (C3_find_col_case_insensitive_total.1 ["country", "Year", "value"] "YEAR").2.1
    "Year" (by decide)

/-- C8.  The coercion-and-filter stage is pure: after a run the cache
still holds the original, un-coerced source table (never the shaped one);
re-running the stage on identical inputs returns the identical result and
leaves the cache unchanged; and on a cache hit the run returns exactly
the shape of the cached table without touching the store. -/
theorem C8_stage_pure_and_idempotent :
    ∀ (disk : Table) (cs req : List String) (s : CacheState),
      (run_task3_stage disk cs req s).2.cached =
        some (load_tb_cov_data disk s).1 ∧
      (run_task3_stage disk cs req ((run_task3_stage disk cs req s).2)).1 =
        (run_task3_stage disk cs req s).1 ∧
      (run_task3_stage disk cs req ((run_task3_stage disk cs req s).2)).2 =
        (run_task3_stage disk cs req s).2 ∧
      (∀ t, s.cached = some t →
        (run_task3_stage disk cs req s).1 = coerceAndFilter t cs req ∧
        (run_task3_stage disk cs req s).2 = s) := by
  intro disk cs req s
  cases hs : s.cached with
  | some t =>
    refine ⟨?_, ?_, ?_, ?_⟩
    · simp [run_task3_stage, load_tb_cov_data, hs]
    · simp [run_task3_stage, load_tb_cov_data, hs]
    · simp [run_task3_stage, load_tb_cov_data, hs]
    · intro t' ht'
      cases ht'
      constructor
      · simp [run_task3_stage, load_tb_cov_data, hs]
      · simp [run_task3_stage, load_tb_cov_data, hs]
  | none =>
    refine ⟨?_, ?_, ?_, ?_⟩
    · simp [run_task3_stage, load_tb_cov_data, hs]
    · simp [run_task3_stage, load_tb_cov_data, hs]
    · simp [run_task3_stage, load_tb_cov_data, hs]
    · intro t' ht'
      cases ht'

/-- Witness for C8 at a concrete input: a run on a warm cache returns the
shape of the cached table and leaves the cache state exactly as it was. -/
theorem C8_stage_pure_and_idempotent_witness :
    (run_task3_stage [] ["VALUE"] ["VALUE"] ⟨some exTop⟩).1 =
        coerceAndFilter exTop ["VALUE"] ["VALUE"] ∧
      (run_task3_stage [] ["VALUE"] ["VALUE"] ⟨some exTop⟩).2 =
        (⟨some exTop⟩ : CacheState) :=
  (C8_stage_pure_and_idempotent [] ["VALUE"] ["VALUE"] ⟨some exTop⟩).2.2.2
    exTop rfl

/-- C6.  Every failure of the task-4 load is converted to the empty frame
rather than propagated: an error of the try-block body (among them a
missing input file, and a missing `year` column which makes the merge
raise), an unknown region key, and an empty side of the merge all yield
the empty frame; the load either returns the body's successful result or
the empty frame, never an error; and the caller renders the empty frame
as the no-data state, every frame mapping to one of the two render
states. -/
theorem C6_load_errors_become_empty :
    (∀ (rk : String) (inc rr : Option Frame),
        ((∃ e, task4Body inc rr = Except.error e) →
          load_task4_data rk inc rr = emptyFrame) ∧
        (task4Keys.contains rk = false →
          load_task4_data rk inc rr = emptyFrame) ∧
        (inc = none ∨ rr = none → load_task4_data rk inc rr = emptyFrame) ∧
        (load_task4_data rk inc rr = emptyFrame ∨
          ∃ f, task4Body inc rr = Except.ok f ∧ load_task4_data rk inc rr = f)) ∧
      (∀ f1 f2 : Frame,
        (f1.header.contains "year" && f2.header.contains "year") = false →
        mergeOnYear f1 f2 = Except.error ()) ∧
      (∀ fi fr : Frame,
        (!(frameEmpty (cleanIncidence fi)) && !(frameEmpty (cleanRR fr))) = false →
        task4Body (some fi) (some fr) = Except.ok emptyFrame) ∧
      show_task4_render emptyFrame = RenderState.noData ∧
      (∀ f, show_task4_render f = RenderState.noData ∨
        show_task4_render f = RenderState.chart) := by
  refine ⟨?_, ?_, ?_, by decide, ?_⟩
  · intro rk inc rr
    refine ⟨?_, ?_, ?_, ?_⟩
    · rintro ⟨e, he⟩
      unfold load_task4_data
      rw [he]
      by_cases hk : task4Keys.contains rk = true <;> simp [hk]
    · intro hk
      unfold load_task4_data
      rw [hk]
      simp
    · intro h
      have : task4Body inc rr = Except.error () := by
        rcases h with rfl | rfl
        · rfl
        · cases inc <;> rfl
      unfold load_task4_data
      rw [this]
      by_cases hk : task4Keys.contains rk = true <;> simp [hk]
    · by_cases hk : task4Keys.contains rk = true
      · cases hb : task4Body inc rr with
        | ok f =>
          right
          refine ⟨f, rfl, ?_⟩
          unfold load_task4_data
          rw [if_pos hk, hb]
        | error e =>
          left
          unfold load_task4_data
          rw [if_pos hk, hb]
      · left
        unfold load_task4_data
        rw [if_neg hk]
  · intro f1 f2 h
    unfold mergeOnYear
    rw [h]
    simp
  · intro fi fr h
    simp only [task4Body]
    rw [h]
    simp
  · intro f
    unfold show_task4_render
    by_cases h : frameEmpty f = true <;> simp [h]

/-- Witness for C6 at concrete inputs: a missing incidence file makes the
body raise, and the load of the Global region returns the empty frame,
which the caller renders as the no-data state. -/
theorem C6_load_errors_become_empty_witness :
    load_task4_data "Global" none none = emptyFrame ∧
      load_task4_data "Mars" none none = emptyFrame ∧
      (show_task4_render emptyFrame = RenderState.noData ∨
        show_task4_render emptyFrame = RenderState.chart) :=
  ⟨(C6_load_errors_become_empty.1 "Global" none none).1 ⟨(), rfl⟩,
    (C6_load_errors_become_empty.1 "Mars" none none).2.1 (by decide),
    C6_load_errors_become_empty.2.2.2.2 emptyFrame⟩

theorem clipRat_mem (lo hi x : ℚ) (h : lo ≤ hi) :
    lo ≤ clipRat lo hi x ∧ clipRat lo hi x ≤ hi := by
  unfold clipRat
  exact ⟨le_min h (le_max_left _ _), min_le_left _ _⟩

/-- C10.  Every row of the reduction frame has a present 2017 incidence
that is strictly positive and a present 2023 incidence — so the division
defining the percentage reduction is never a division by zero and the
reduction equals `(inc2017 - inc2023) / inc2017 * 100` on those values —
and the capped reduction always lies in the closed interval [-50, 100]. -/
theorem C10_reduction_never_divides_by_zero :
    ∀ (raw : List T2Row), ∀ w ∈ load_task2_map_data raw,
      (∃ a b, w.inc_2017 = some a ∧ w.inc_2023 = some b ∧ 0 < a ∧
        w.reduction_pct = (a - b) / a * 100) ∧
      -50 ≤ w.reduction_pct_capped ∧ w.reduction_pct_capped ≤ 100 := by
  intro raw w hw
  rcases List.mem_map.mp hw with ⟨w0, hw0, rfl⟩
  have hpred := List.of_mem_filter hw0
  rw [Bool.and_eq_true, Bool.and_eq_true] at hpred
  obtain ⟨⟨h17, h23⟩, hpos⟩ := hpred
  rcases ho17 : w0.inc_2017 with _ | a
  · rw [ho17] at h17; simp at h17
  rcases ho23 : w0.inc_2023 with _ | b
  · rw [ho23] at h23; simp at h23
  rw [decide_eq_true_eq, ho17] at hpos
  simp only [Option.getD_some] at hpos
  refine ⟨⟨a, b, by simp [ho17], by simp [ho23], hpos, by simp [ho17, ho23]⟩, ?_, ?_⟩
  · exact (clipRat_mem (-50) 100 _ (by norm_num)).1
  · exact (clipRat_mem (-50) 100 _ (by norm_num)).2

theorem t2Keys_exT2 : t2Keys exT2 = [("Kosovo", "XKX", "Africa")] := by
  decide

theorem t2CellVals_exT2_17 :
    t2CellVals exT2 ("Kosovo", "XKX", "Africa") 2017 = [10] := by
  decide

theorem t2CellVals_exT2_23 :
    t2CellVals exT2 ("Kosovo", "XKX", "Africa") 2023 = [5] := by
  decide

theorem t2Wide_exT2 :
    t2Wide exT2 = [⟨"Kosovo", "XKX", "Africa", some 10, some 5⟩] := by
  rw [t2Wide, t2Keys_exT2]
  simp only [List.map_cons, List.map_nil, t2CellVals_exT2_17, t2CellVals_exT2_23]
  norm_num [cellMean]

theorem load_task2_exT2 :
    load_task2_map_data exT2 =
      [⟨"Kosovo", "XKX", "Africa", some 10, some 5, 50, 50⟩] := by
  rw [load_task2_map_data, t2Wide_exT2]
  norm_num [clipRat]

/-- Witness for C10 at a concrete input: the one computed row has present
incidences 10 and 5, a positive denominator, reduction 50, and its capped
value 50 lies within [-50, 100]. -/
theorem C10_reduction_never_divides_by_zero_witness :
    (∃ a b, some (10 : ℚ) = some a ∧ some (5 : ℚ) = some b ∧ 0 < a ∧
      (50 : ℚ) = (a - b) / a * 100) ∧
      (-50 : ℚ) ≤ 50 ∧ (50 : ℚ) ≤ 100 :=
  C10_reduction_never_divides_by_zero exT2
    ⟨"Kosovo", "XKX", "Africa", some 10, some 5, 50, 50⟩
    (by simp [load_task2_exT2])
